import Mathlib

/-!
Verification development for the slow-node detection scripts.

The definitions below are a shallow embedding, translated from
`scripts/analysis/bisection_detection.py` and
`scripts/analysis/detect_slow_nodes.py`.  Floating-point bandwidths are
modelled exactly by rationals (`ℚ`); the computations the claims touch
(`bw * 0.8`, means, variances, comparisons) are exact in the scenarios of
interest, so the rational model agrees with IEEE doubles there.  Node
identifiers are kept abstract (`α` with decidable equality) or `String`.
Python sets (`bad_nodes`, `good_nodes`) are modelled as lists whose
semantics is membership; the append-only `test_history` is a list in
invocation order.
-/

namespace SlowNode

/-- Python truthiness of an optional float (`if bandwidth:` /
`if self.threshold_gb_s:` in the source): `None` and `0.0` are falsy. -/
def truthyQ : Option ℚ → Bool
  | none => false
  | some x => decide (x ≠ 0)

/-- Outcome of one external benchmark run (`mpirun`/`all_reduce_perf` in
`_run_nccl_test`): a clean completion carries the process return code and
the bandwidth parsed from its output (`None` when unparseable), while
`errored` is the `subprocess.TimeoutExpired` / generic-exception path. -/
inductive RunOutcome where
  | completed (returncode : Int) (bandwidth : Option ℚ)
  | errored
deriving DecidableEq

/-- One entry of `self.test_history`: the dict built in `_run_nccl_test`
(lines 108-154 of `bisection_detection.py`), restricted to the fields the
claims read. -/
structure TestRecord (α : Type) where
  nodes : List α
  success : Bool
  bandwidth : Option ℚ
  is_good : Bool
deriving DecidableEq

/-- Builds the `result` dict of `_run_nccl_test` from the raw outcome and
the tester's current threshold.  On clean completion `success :=
(returncode == 0)`, and `is_good := bandwidth >= threshold` exactly when
`bandwidth and self.threshold_gb_s` is truthy in Python (both present and
nonzero), else the raw success flag.  On timeout/exception `success`
keeps its initial `False` and `is_good` is set to `False`. -/
def mkRecord (nodes : List α) (out : RunOutcome) (threshold : Option ℚ) : TestRecord α :=
  match out with
  | .completed rc bw =>
    let succ := decide (rc = 0)
    { nodes := nodes
      success := succ
      bandwidth := bw
      is_good :=
        if truthyQ bw && truthyQ threshold then
          decide (threshold.getD 0 ≤ bw.getD 0)
        else succ }
  | .errored =>
    { nodes := nodes, success := false, bandwidth := none, is_good := false }

/-- Mutable state of a `BisectionNodeTester`: the (immutable-per-run)
threshold, the append-only test history and the known-good set. -/
structure TesterState (α : Type) where
  threshold : Option ℚ
  history : List (TestRecord α)
  good_nodes : List α
deriving DecidableEq

/-- `_run_nccl_test`: runs the external benchmark (modelled by `env`) on a
node sublist, builds the result record and appends it to the history.
Every invocation — success or failure — is appended. -/
def run_nccl_test (env : List α → RunOutcome) (s : TesterState α) (nodes : List α) :
    TestRecord α × TesterState α :=
  let r := mkRecord nodes (env nodes) s.threshold
  (r, { s with history := s.history ++ [r] })

/-- `_bisect_test` (lines 189-231): recursive binary search.  Empty list:
no test, empty condemned set.  Single node: test it; condemned iff not
good (the good case returns an empty set without touching
`self.good_nodes`).  Two or more nodes: test the whole sublist; if good,
add all of them to `self.good_nodes` and stop; otherwise split at
`len // 2` and recurse on the two contiguous halves in order, returning
the union (list append, set semantics) of their condemned sets. -/
def bisect_test_run (env : List α → RunOutcome) (s : TesterState α) (nodes : List α) :
    List α × TesterState α :=
  if nodes.length = 0 then ([], s)
  else if nodes.length = 1 then
    let p := run_nccl_test env s nodes
    if p.1.is_good then ([], p.2) else (nodes, p.2)
  else
    let p := run_nccl_test env s nodes
    if p.1.is_good then ([], { p.2 with good_nodes := p.2.good_nodes ++ nodes })
    else
      let mid := nodes.length / 2
      let left := bisect_test_run env p.2 (nodes.take mid)
      let right := bisect_test_run env left.2 (nodes.drop mid)
      (left.1 ++ right.1, right.2)
termination_by nodes.length
decreasing_by
  all_goals simp [List.length_take, List.length_drop]
  all_goals omega

/-- `run_bisection_detection` (lines 233-292), restricted to the state the
claims read: when the configured threshold is falsy (`if not
self.threshold_gb_s:`), a baseline test is first run on the first two
hosts, and — if its parsed bandwidth is truthy — the threshold becomes
`0.8` (`4/5`) times that bandwidth; then
`_bisect_test` runs on the full roster.  Returns the condemned set and the
final tester state. -/
def run_bisection_detection (env : List α → RunOutcome) (hosts : List α)
    (threshold0 : Option ℚ) : List α × TesterState α :=
  let s0 : TesterState α := ⟨threshold0, [], []⟩
  let s1 :=
    if truthyQ threshold0 then s0
    else
      let p := run_nccl_test env s0 (hosts.take 2)
      if truthyQ p.1.bandwidth then
        { p.2 with threshold := some (p.1.bandwidth.getD 0 * (4/5)) }
      else p.2
  bisect_test_run env s1 hosts

/-- `main` (lines 464-550), reduced to its exit-status behaviour: a
missing hostfile exits `1` before any benchmarking; otherwise the run
exits `1` when the final condemned set is non-empty and `0` when it is
empty. -/
def mainExit (hostfileExists : Bool) (bad_nodes : List String) : Nat :=
  if !hostfileExists then 1
  else if bad_nodes.isEmpty then 0 else 1

/-! Unfolding equations for `bisect_test_run` (its recursion is by
well-founded recursion on the sublist length, so it does not reduce
definitionally; these three lemmas recover the three branches). -/

lemma bisect_nil (env : List α → RunOutcome) (s : TesterState α) :
    bisect_test_run env s [] = ([], s) := by
  rw [bisect_test_run.eq_def]
  simp

lemma bisect_single (env : List α → RunOutcome) (s : TesterState α) (x : α) :
    bisect_test_run env s [x] =
      (if (mkRecord [x] (env [x]) s.threshold).is_good then [] else [x],
       { s with history := s.history ++ [mkRecord [x] (env [x]) s.threshold] }) := by
  rw [bisect_test_run.eq_def]
  by_cases hg : (mkRecord [x] (env [x]) s.threshold).is_good <;>
    simp [run_nccl_test, hg]

lemma bisect_group_good (env : List α → RunOutcome) (s : TesterState α) (nodes : List α)
    (h : 2 ≤ nodes.length)
    (hg : (mkRecord nodes (env nodes) s.threshold).is_good = true) :
    bisect_test_run env s nodes =
      ([], { s with
             history := s.history ++ [mkRecord nodes (env nodes) s.threshold]
             good_nodes := s.good_nodes ++ nodes }) := by
  have h0 : ¬ nodes.length = 0 := by omega
  have h1 : ¬ nodes.length = 1 := by omega
  rw [bisect_test_run.eq_def]
  simp [h0, h1, run_nccl_test, hg]

lemma bisect_group_bad (env : List α → RunOutcome) (s : TesterState α) (nodes : List α)
    (h : 2 ≤ nodes.length)
    (hg : (mkRecord nodes (env nodes) s.threshold).is_good = false) :
    bisect_test_run env s nodes =
      ((bisect_test_run env
          { s with history := s.history ++ [mkRecord nodes (env nodes) s.threshold] }
          (nodes.take (nodes.length / 2))).1 ++
        (bisect_test_run env
          (bisect_test_run env
            { s with history := s.history ++ [mkRecord nodes (env nodes) s.threshold] }
            (nodes.take (nodes.length / 2))).2
          (nodes.drop (nodes.length / 2))).1,
       (bisect_test_run env
          (bisect_test_run env
            { s with history := s.history ++ [mkRecord nodes (env nodes) s.threshold] }
            (nodes.take (nodes.length / 2))).2
          (nodes.drop (nodes.length / 2))).2) := by
  have h0 : ¬ nodes.length = 0 := by omega
  have h1 : ¬ nodes.length = 1 := by omega
  rw [bisect_test_run.eq_def]
  simp [h0, h1, run_nccl_test, hg]

/-- State evolution of the recursion: the threshold is never modified, and
the history only grows, by records all created at the caller's threshold. -/
lemma bisect_state_aux (env : List α → RunOutcome) :
    ∀ (n : ℕ) (nodes : List α), nodes.length ≤ n → ∀ s : TesterState α,
      (bisect_test_run env s nodes).2.threshold = s.threshold ∧
      ∃ t, (bisect_test_run env s nodes).2.history = s.history ++ t ∧
        ∀ r ∈ t, ∃ l, r = mkRecord l (env l) s.threshold := by
  intro n
  induction n with
  | zero =>
    intro nodes hlen s
    have hnil : nodes = [] := List.eq_nil_of_length_eq_zero (Nat.le_zero.mp hlen)
    subst hnil
    rw [bisect_nil]
    exact ⟨rfl, [], by simp, by simp⟩
  | succ n ih =>
    intro nodes hlen s
    match nodes, hlen with
    | [], _ =>
      rw [bisect_nil]
      exact ⟨rfl, [], by simp, by simp⟩
    | [x], _ =>
      rw [bisect_single]
      refine ⟨rfl, [mkRecord [x] (env [x]) s.threshold], rfl, ?_⟩
      intro r hr
      simp only [List.mem_singleton] at hr
      exact ⟨[x], hr⟩
    | x :: y :: rest, hlen =>
      have h2 : 2 ≤ (x :: y :: rest).length := by
        simp only [List.length_cons]
        omega
      cases hg : (mkRecord (x :: y :: rest) (env (x :: y :: rest)) s.threshold).is_good with
      | true =>
        rw [bisect_group_good env s _ h2 hg]
        refine ⟨rfl, [mkRecord (x :: y :: rest) (env (x :: y :: rest)) s.threshold], rfl, ?_⟩
        intro q hq
        simp only [List.mem_singleton] at hq
        exact ⟨x :: y :: rest, hq⟩
      | false =>
        rw [bisect_group_bad env s _ h2 hg]
        have hlen' : (x :: y :: rest).length ≤ n + 1 := hlen
        have htake : ((x :: y :: rest).take ((x :: y :: rest).length / 2)).length ≤ n := by
          simp only [List.length_take, List.length_cons] at *
          omega
        have hdrop : ((x :: y :: rest).drop ((x :: y :: rest).length / 2)).length ≤ n := by
          simp only [List.length_drop, List.length_cons] at *
          omega
        obtain ⟨hth1, t1, hh1, hrec1⟩ :=
          ih ((x :: y :: rest).take ((x :: y :: rest).length / 2)) htake
            { s with history :=
                s.history ++ [mkRecord (x :: y :: rest) (env (x :: y :: rest)) s.threshold] }
        obtain ⟨hth2, t2, hh2, hrec2⟩ :=
          ih ((x :: y :: rest).drop ((x :: y :: rest).length / 2)) hdrop
            (bisect_test_run env
              { s with history :=
                  s.history ++ [mkRecord (x :: y :: rest) (env (x :: y :: rest)) s.threshold] }
              ((x :: y :: rest).take ((x :: y :: rest).length / 2))).2
        refine ⟨by rw [hth2, hth1],
          [mkRecord (x :: y :: rest) (env (x :: y :: rest)) s.threshold] ++ (t1 ++ t2), ?_, ?_⟩
        · show (bisect_test_run env _ _).2.history = _
          rw [hh2, hh1]
          simp
        · intro q hq
          simp only [List.mem_append, List.mem_singleton] at hq
          rcases hq with hq | hq | hq
          · exact ⟨x :: y :: rest, hq⟩
          · exact hrec1 q hq
          · obtain ⟨l, hl⟩ := hrec2 q hq
            exact ⟨l, by rw [hl, hth1]⟩

/-- The recursion never changes the threshold. -/
lemma bisect_threshold (env : List α → RunOutcome) (s : TesterState α) (nodes : List α) :
    (bisect_test_run env s nodes).2.threshold = s.threshold :=
  (bisect_state_aux env nodes.length nodes le_rfl s).1

/-- The recursion only appends to the history, by records created at the
caller's threshold. -/
lemma bisect_history (env : List α → RunOutcome) (s : TesterState α) (nodes : List α) :
    ∃ t, (bisect_test_run env s nodes).2.history = s.history ++ t ∧
      ∀ r ∈ t, ∃ l, r = mkRecord l (env l) s.threshold :=
  (bisect_state_aux env nodes.length nodes le_rfl s).2

/-- Core correctness of the bisection: when the benchmark judges a sublist
bad exactly when it contains a member of a fixed set `S`, the condemned
set returned for a sublist is its intersection with `S` (as membership). -/
lemma bisect_member_aux [DecidableEq α] (env : List α → RunOutcome) (S : List α) (th : Option ℚ)
    (Hgood : ∀ l : List α, ((mkRecord l (env l) th).is_good = true) ↔ ∀ x ∈ l, x ∉ S) :
    ∀ (n : ℕ) (nodes : List α), nodes.length ≤ n → ∀ s : TesterState α, s.threshold = th →
      ∀ z, z ∈ (bisect_test_run env s nodes).1 ↔ (z ∈ nodes ∧ z ∈ S) := by
  intro n
  induction n with
  | zero =>
    intro nodes hlen s hth z
    have hnil : nodes = [] := List.eq_nil_of_length_eq_zero (Nat.le_zero.mp hlen)
    subst hnil
    rw [bisect_nil]
    simp
  | succ n ih =>
    intro nodes hlen s hth z
    match nodes, hlen with
    | [], _ =>
      rw [bisect_nil]
      simp
    | [x], _ =>
      rw [bisect_single]
      cases hg : (mkRecord [x] (env [x]) s.threshold).is_good with
      | true =>
        rw [hth] at hg
        have hx : x ∉ S := (Hgood [x]).mp hg x (List.mem_singleton_self x)
        simp only [if_pos rfl]
        constructor
        · intro hz
          exact absurd hz (List.not_mem_nil z)
        · rintro ⟨hz, hzS⟩
          rw [List.mem_singleton] at hz
          exact absurd hzS (hz ▸ hx)
      | false =>
        rw [hth] at hg
        have hx : x ∈ S := by
          by_contra hxn
          have hall : ∀ w ∈ [x], w ∉ S := by
            intro w hw
            rw [List.mem_singleton] at hw
            rw [hw]
            exact hxn
          rw [(Hgood [x]).mpr hall] at hg
          exact Bool.noConfusion hg
        simp only [if_neg Bool.false_ne_true]
        constructor
        · intro hz
          rw [List.mem_singleton] at hz
          exact ⟨by rw [hz]; exact List.mem_singleton_self x, hz ▸ hx⟩
        · exact fun hcl => hcl.1
    | x :: y :: rest, hlen =>
      have h2 : 2 ≤ (x :: y :: rest).length := by
        simp only [List.length_cons]
        omega
      cases hg : (mkRecord (x :: y :: rest) (env (x :: y :: rest)) s.threshold).is_good with
      | true =>
        rw [bisect_group_good env s _ h2 hg]
        rw [hth] at hg
        have hall := (Hgood _).mp hg
        constructor
        · intro hz
          exact absurd hz (List.not_mem_nil z)
        · rintro ⟨hz, hzS⟩
          exact absurd hzS (hall z hz)
      | false =>
        rw [bisect_group_bad env s _ h2 hg]
        have htake : ((x :: y :: rest).take ((x :: y :: rest).length / 2)).length ≤ n := by
          simp only [List.length_take, List.length_cons] at *
          omega
        have hdrop : ((x :: y :: rest).drop ((x :: y :: rest).length / 2)).length ≤ n := by
          simp only [List.length_drop, List.length_cons] at *
          omega
        have ihtake := ih ((x :: y :: rest).take ((x :: y :: rest).length / 2)) htake
          { s with history :=
              s.history ++ [mkRecord (x :: y :: rest) (env (x :: y :: rest)) s.threshold] }
          hth z
        have ihdrop := ih ((x :: y :: rest).drop ((x :: y :: rest).length / 2)) hdrop
          (bisect_test_run env
            { s with history :=
                s.history ++ [mkRecord (x :: y :: rest) (env (x :: y :: rest)) s.threshold] }
            ((x :: y :: rest).take ((x :: y :: rest).length / 2))).2
          (by rw [bisect_threshold]; exact hth) z
        rw [List.mem_append, ihtake, ihdrop, ← or_and_right, ← List.mem_append,
          List.take_append_drop]

/-- C1: for every roster and every benchmark oracle that judges a sublist
bad exactly when it contains a member of a fixed subset `S` of the roster,
`_bisect_test` terminates with condemned set exactly `S`; bad sublists of
length at least two are split at `len / 2` into contiguous halves (see
`bisect_test_run`) and the result is the union of the halves' results. -/
theorem bisection_condemned_eq_scripted_set [DecidableEq α]
    (env : List α → RunOutcome) (S roster : List α) (s : TesterState α)
    (Hgood : ∀ l : List α,
      ((mkRecord l (env l) s.threshold).is_good = true) ↔ ∀ x ∈ l, x ∉ S)
    (hS : ∀ x ∈ S, x ∈ roster) :
    ∀ z, z ∈ (bisect_test_run env s roster).1 ↔ z ∈ S := by
  intro z
  rw [bisect_member_aux env S s.threshold Hgood roster.length roster le_rfl s rfl z]
  exact ⟨fun h => h.2, fun h => ⟨hS z h, h⟩⟩

/-- A membership-scripted benchmark oracle: the external benchmark exits
with status 1 (bad) exactly when the tested sublist meets `S`, and yields
no bandwidth reading, so the verdict is the raw success flag. -/
def memberEnv [DecidableEq α] (S : List α) : List α → RunOutcome :=
  fun l => .completed (if l.any (fun x => decide (x ∈ S)) then 1 else 0) none

/-- Witness for C1: a roster of four nodes with scripted bad set
consisting of the node `b`. -/
theorem bisection_condemned_eq_scripted_set_witness :
    (∀ x ∈ ["b"], x ∈ ["a", "b", "c", "d"]) ∧
      ("b" ∈ (bisect_test_run (memberEnv ["b"]) ⟨none, [], []⟩ ["a", "b", "c", "d"]).1 ↔
        "b" ∈ ["b"]) ∧
      ("a" ∈ (bisect_test_run (memberEnv ["b"]) ⟨none, [], []⟩ ["a", "b", "c", "d"]).1 ↔
        "a" ∈ ["b"]) := by
  refine ⟨by decide, ?_, ?_⟩ <;>
    exact bisection_condemned_eq_scripted_set (memberEnv ["b"]) ["b"] ["a", "b", "c", "d"]
      ⟨none, [], []⟩
      (by
        intro l
        simp only [memberEnv, mkRecord, truthyQ]
        simp
        constructor
        · intro hb x hx hxb
          exact hb (hxb ▸ hx)
        · intro hall hb
          exact hall "b" hb rfl)
      (by decide) _

lemma truthyQ_none : truthyQ none = false := rfl

/-- A record created while no threshold is established always takes its
verdict from the raw success flag. -/
lemma mkRecord_is_good_of_none (nodes : List α) (out : RunOutcome) :
    (mkRecord nodes out none).is_good = (mkRecord nodes out none).success := by
  cases out <;> simp [mkRecord, truthyQ]

/-- C7 (amended): in the single-node base case the benchmark runs on that
node and its record is appended to the history; a bad verdict condemns the
node and a good verdict returns an empty condemned set, but in both cases
the known-good set is left unchanged — the source records known-good nodes
only for good groups of two or more. -/
theorem single_node_base_case (env : List α → RunOutcome) (s : TesterState α) (x : α) :
    ((mkRecord [x] (env [x]) s.threshold).is_good = false →
      (bisect_test_run env s [x]).1 = [x]) ∧
    ((mkRecord [x] (env [x]) s.threshold).is_good = true →
      (bisect_test_run env s [x]).1 = []) ∧
    (bisect_test_run env s [x]).2.good_nodes = s.good_nodes ∧
    (bisect_test_run env s [x]).2.history =
      s.history ++ [mkRecord [x] (env [x]) s.threshold] := by
  rw [bisect_single]
  refine ⟨?_, ?_, rfl, rfl⟩
  · intro hg
    simp [hg]
  · intro hg
    simp [hg]

/-- A benchmark model that always completes cleanly with no bandwidth
reading, so every verdict falls back to the (good) success flag. -/
def goodEnvNoBW : List String → RunOutcome := fun _ => .completed 0 none

/-- A benchmark model that always fails (exit status 1, no bandwidth). -/
def badEnvFail : List String → RunOutcome := fun _ => .completed 1 none

/-- Witness for the single-node base case: a failing single node is
condemned and the known-good set is untouched. -/
theorem single_node_base_case_witness :
    (mkRecord ["a"] (badEnvFail ["a"]) (none : Option ℚ)).is_good = false ∧
      (bisect_test_run badEnvFail ⟨none, [], []⟩ ["a"]).1 = ["a"] :=
  ⟨rfl, (single_node_base_case badEnvFail ⟨none, [], []⟩ "a").1 rfl⟩

/-- C7 counterexample: a single good node is NOT recorded in the
known-good set — the verdict is good and the condemned set comes back
empty, yet `good_nodes` stays empty. -/
theorem single_node_good_not_recorded :
    (mkRecord ["a"] (goodEnvNoBW ["a"]) (none : Option ℚ)).is_good = true ∧
      (bisect_test_run goodEnvNoBW ⟨none, [], []⟩ ["a"]).1 = [] ∧
      (bisect_test_run goodEnvNoBW ⟨none, [], []⟩ ["a"]).2.good_nodes = [] := by
  refine ⟨rfl, ?_, ?_⟩
  · rw [bisect_single]
    rfl
  · rw [bisect_single]

/-- C2 (amended): for a non-empty all-good roster with an established
(truthy) threshold, `run_bisection_detection` makes exactly one benchmark
invocation and condemns nothing. -/
theorem all_good_roster_one_invocation (env : List α → RunOutcome) (hosts : List α)
    (th : Option ℚ) (hth : truthyQ th = true) (hne : hosts ≠ [])
    (Hgood : ∀ l : List α, (mkRecord l (env l) th).is_good = true) :
    (run_bisection_detection env hosts th).1 = [] ∧
      (run_bisection_detection env hosts th).2.history.length = 1 := by
  have hrun : run_bisection_detection env hosts th =
      bisect_test_run env ⟨th, [], []⟩ hosts := by
    simp [run_bisection_detection, hth]
  rw [hrun]
  match hosts, hne with
  | [x], _ =>
    rw [bisect_single]
    exact ⟨by simp [Hgood [x]], by simp⟩
  | x :: y :: rest, _ =>
    rw [bisect_group_good env _ _ (by simp only [List.length_cons]; omega) (Hgood _)]
    exact ⟨rfl, by simp⟩

/-- Witness for the amended C2: three good nodes, preset threshold 5,
one invocation, nothing condemned. -/
theorem all_good_roster_one_invocation_witness :
    (run_bisection_detection goodEnvNoBW ["a", "b", "c"] (some 5)).1 = [] ∧
      (run_bisection_detection goodEnvNoBW ["a", "b", "c"] (some 5)).2.history.length = 1 :=
  all_good_roster_one_invocation goodEnvNoBW ["a", "b", "c"] (some 5) (by decide)
    (by decide) (fun _ => rfl)

/-- A benchmark model that always completes cleanly with bandwidth 100. -/
def goodEnv100 : List String → RunOutcome := fun _ => .completed 0 (some 100)

/-- C2 counterexample: when no threshold is supplied, an all-good roster
of two nodes costs TWO invocations (the auto-calibration baseline plus the
single top-level test), and with a threshold supplied an empty roster
costs zero — the invocation count is not 1 regardless of n. -/
theorem all_good_roster_invocation_count_cex :
    ((run_bisection_detection goodEnv100 ["a", "b"] none).1 = [] ∧
      (run_bisection_detection goodEnv100 ["a", "b"] none).2.history.length = 2) ∧
      (run_bisection_detection goodEnv100 ([] : List String) (some 1)).2.history.length = 0 := by
  constructor
  · have hrun : run_bisection_detection goodEnv100 ["a", "b"] none =
        bisect_test_run goodEnv100
          ⟨some ((100 : ℚ) * (4 / 5)), [mkRecord ["a", "b"] (goodEnv100 ["a", "b"]) none], []⟩
          ["a", "b"] := by
      simp [run_bisection_detection, run_nccl_test, truthyQ, goodEnv100, mkRecord]
    rw [hrun, bisect_group_good _ _ _ (by decide)
      (by norm_num [mkRecord, goodEnv100, truthyQ])]
    exact ⟨rfl, by simp⟩
  · simp [run_bisection_detection, truthyQ, bisect_nil]

/-- C6 (amended): with no threshold supplied, a baseline benchmark is run
first on the first two roster nodes; if it yields a present and NONZERO
(truthy) bandwidth `b`, the threshold for the whole run becomes exactly
`0.8 * b` (250 gives exactly 200); if it yields no bandwidth reading — or
a reading of exactly 0.0, which the truthiness test
`if baseline.get("bandwidth_gb_s"):` treats as absent — no threshold is
established and every recorded verdict of the run equals the raw process
success flag. -/
theorem threshold_auto_calibration (env : List α → RunOutcome) (hosts : List α) :
    ((run_bisection_detection env hosts none).2.history.head? =
      some (mkRecord (hosts.take 2) (env (hosts.take 2)) none)) ∧
    (∀ b : ℚ, (mkRecord (hosts.take 2) (env (hosts.take 2)) none).bandwidth = some b →
      b ≠ 0 →
      (run_bisection_detection env hosts none).2.threshold = some (b * (4 / 5))) ∧
    ((mkRecord (hosts.take 2) (env (hosts.take 2)) none).bandwidth = some 250 →
      (run_bisection_detection env hosts none).2.threshold = some 200) ∧
    (((mkRecord (hosts.take 2) (env (hosts.take 2)) none).bandwidth = none ∨
        (mkRecord (hosts.take 2) (env (hosts.take 2)) none).bandwidth = some 0) →
      (run_bisection_detection env hosts none).2.threshold = none ∧
      ∀ r ∈ (run_bisection_detection env hosts none).2.history,
        r.is_good = r.success) := by
  by_cases htr : truthyQ (mkRecord (hosts.take 2) (env (hosts.take 2)) none).bandwidth = true
  · have hrun : run_bisection_detection env hosts none =
        bisect_test_run env
          ⟨some ((mkRecord (hosts.take 2) (env (hosts.take 2)) none).bandwidth.getD 0 * (4 / 5)),
            [mkRecord (hosts.take 2) (env (hosts.take 2)) none], []⟩
          hosts := by
      simp [run_bisection_detection, run_nccl_test, htr, truthyQ_none]
    obtain ⟨t, hh, -⟩ := bisect_history env
      (⟨some ((mkRecord (hosts.take 2) (env (hosts.take 2)) none).bandwidth.getD 0 * (4 / 5)),
        [mkRecord (hosts.take 2) (env (hosts.take 2)) none], []⟩ : TesterState α) hosts
    have hth := bisect_threshold env
      (⟨some ((mkRecord (hosts.take 2) (env (hosts.take 2)) none).bandwidth.getD 0 * (4 / 5)),
        [mkRecord (hosts.take 2) (env (hosts.take 2)) none], []⟩ : TesterState α) hosts
    refine ⟨?_, ?_, ?_, ?_⟩
    · rw [hrun, hh]
      rfl
    · intro b hb hb0
      rw [hrun, hth, hb]
      rfl
    · intro hb
      rw [hrun, hth, hb]
      norm_num
    · intro hb
      rcases hb with hb | hb <;> rw [hb] at htr <;>
        exact absurd htr (by simp [truthyQ])
  · have hrun : run_bisection_detection env hosts none =
        bisect_test_run env
          ⟨none, [mkRecord (hosts.take 2) (env (hosts.take 2)) none], []⟩ hosts := by
      simp [run_bisection_detection, run_nccl_test, htr, truthyQ_none]
    obtain ⟨t, hh, hrec⟩ := bisect_history env
      (⟨none, [mkRecord (hosts.take 2) (env (hosts.take 2)) none], []⟩ : TesterState α) hosts
    have hth := bisect_threshold env
      (⟨none, [mkRecord (hosts.take 2) (env (hosts.take 2)) none], []⟩ : TesterState α) hosts
    refine ⟨?_, ?_, ?_, ?_⟩
    · rw [hrun, hh]
      rfl
    · intro b hb hb0
      rw [hb] at htr
      exact absurd (by simp [truthyQ, hb0]) htr
    · intro hb
      rw [hb] at htr
      exact absurd (by simp [truthyQ]) htr
    · intro _
      refine ⟨by rw [hrun, hth], ?_⟩
      intro r hr
      rw [hrun, hh] at hr
      rcases List.mem_append.mp hr with hr | hr
      · rw [List.mem_singleton] at hr
        rw [hr]
        exact mkRecord_is_good_of_none _ _
      · obtain ⟨l, hl⟩ := hrec r hr
        rw [hl]
        exact mkRecord_is_good_of_none _ _

/-- A benchmark model that always completes cleanly with a parsed
bandwidth of exactly 0.0. -/
def env0bw : List String → RunOutcome := fun _ => .completed 0 (some 0)

/-- C6 counterexample: a baseline that produces a bandwidth reading of
exactly 0.0 — the claim's unconditional rule demands a threshold of
exactly `0.8 * 0.0`, but the truthiness test
`if baseline.get("bandwidth_gb_s"):` (line 249) treats the zero reading
as absent, so NO threshold is established. -/
theorem zero_baseline_no_threshold_cex :
    (mkRecord (["a", "b", "c"].take 2) (env0bw (["a", "b", "c"].take 2)) none).bandwidth =
        some 0 ∧
      (run_bisection_detection env0bw ["a", "b", "c"] none).2.threshold = none ∧
      (run_bisection_detection env0bw ["a", "b", "c"] none).2.threshold ≠
        some ((0 : ℚ) * (4 / 5)) := by
  have hrun : run_bisection_detection env0bw ["a", "b", "c"] none =
      bisect_test_run env0bw
        ⟨none,
          [mkRecord (["a", "b", "c"].take 2) (env0bw (["a", "b", "c"].take 2)) none], []⟩
        ["a", "b", "c"] := by
    simp [run_bisection_detection, run_nccl_test, truthyQ_none, env0bw, mkRecord, truthyQ]
  refine ⟨rfl, ?_, ?_⟩
  · rw [hrun, bisect_threshold]
  · rw [hrun, bisect_threshold]
    simp

/-- A benchmark model that always completes cleanly with bandwidth 250. -/
def env250 : List String → RunOutcome := fun _ => .completed 0 (some 250)

/-- Witness for C6: a 250 GB/s baseline yields a threshold of exactly
200 GB/s. -/
theorem threshold_auto_calibration_witness :
    (mkRecord (["a", "b", "c"].take 2) (env250 (["a", "b", "c"].take 2)) none).bandwidth =
        some 250 ∧
      (run_bisection_detection env250 ["a", "b", "c"] none).2.threshold = some 200 :=
  ⟨rfl, (threshold_auto_calibration env250 ["a", "b", "c"]).2.2.1 rfl⟩

/-- C5 counterexample: a parsed bandwidth of exactly 0.0 with an
established threshold of 100 — the claim demands the verdict
`bandwidth ≥ threshold` (false here), but the source's truthiness test
`if bandwidth and self.threshold_gb_s` treats the zero bandwidth as
absent and returns the raw success flag, true. -/
theorem zero_bandwidth_verdict_cex :
    (mkRecord ["a"] (RunOutcome.completed 0 (some 0)) (some 100)).is_good = true ∧
      ¬ ((100 : ℚ) ≤ 0) :=
  ⟨rfl, by norm_num⟩

/-- C5 (amended): the verdict is `bandwidth ≥ threshold` exactly when the
parsed bandwidth and the threshold are both present AND nonzero (Python
truthiness); in every other case — bandwidth missing, bandwidth exactly
0.0, threshold missing, threshold 0.0, or an errored invocation — the
verdict equals the raw process success flag. -/
theorem is_good_verdict_rule (nodes : List α) (out : RunOutcome) (th : Option ℚ) :
    (∀ b t : ℚ, (mkRecord nodes out th).bandwidth = some b → b ≠ 0 →
      th = some t → t ≠ 0 →
      (mkRecord nodes out th).is_good = decide (t ≤ b)) ∧
    (((mkRecord nodes out th).bandwidth = none ∨
        (mkRecord nodes out th).bandwidth = some 0 ∨ th = none ∨ th = some 0) →
      (mkRecord nodes out th).is_good = (mkRecord nodes out th).success) := by
  cases out with
  | completed rc bw =>
    constructor
    · intro b t hb hb0 hth ht0
      simp only [mkRecord] at hb ⊢
      rw [hb, hth]
      simp [truthyQ, hb0, ht0]
    · intro hcase
      simp only [mkRecord] at hcase ⊢
      rcases hcase with hb | hb | hth | hth
      · rw [hb]
        simp [truthyQ]
      · rw [hb]
        simp [truthyQ]
      · rw [hth]
        simp [truthyQ]
      · rw [hth]
        simp [truthyQ]
  | errored =>
    constructor
    · intro b t hb
      exact absurd hb (by simp [mkRecord])
    · intro _
      rfl

/-- Witness for the amended C5: bandwidth 50 against threshold 100 is
judged by the comparison, hence bad. -/
theorem is_good_verdict_rule_witness :
    (mkRecord ["a"] (RunOutcome.completed 0 (some 50)) (some 100)).is_good =
      decide ((100 : ℚ) ≤ 50) :=
  (is_good_verdict_rule ["a"] (RunOutcome.completed 0 (some 50)) (some 100)).1 50 100 rfl
    (by norm_num) rfl (by norm_num)

/-- C4 counterexample: the missing-hostfile exit code and the
bad-nodes-found exit code are both `1` — they are not distinguishable. -/
theorem exit_code_not_distinguishable_cex :
    mainExit false [] = 1 ∧ mainExit true ["node1"] = 1 ∧
      mainExit false [] = mainExit true ["node1"] :=
  ⟨rfl, rfl, rfl⟩

/-- C4 (amended): with the hostfile present the exit status is zero
exactly when the condemned set is empty and `1` when it is non-empty; a
missing hostfile also exits `1`, non-zero but equal to — not
distinguishable from — the bad-nodes code. -/
theorem exit_status_contract (bad : List String) :
    (mainExit true bad = 0 ↔ bad = []) ∧
      (bad ≠ [] → mainExit true bad = 1) ∧ mainExit false bad = 1 := by
  refine ⟨?_, ?_, rfl⟩
  · cases bad <;> simp [mainExit]
  · intro h
    cases bad with
    | nil => exact absurd rfl h
    | cons a l => simp [mainExit]

/-- Witness for the amended C4 at concrete condemned sets. -/
theorem exit_status_contract_witness :
    (mainExit true [] = 0 ↔ ([] : List String) = []) ∧ mainExit true ["n"] = 1 :=
  ⟨(exit_status_contract []).1, (exit_status_contract ["n"]).2.1 (by decide)⟩

/-! The outlier detector of `detect_slow_nodes.py` (`SlowNodeDetector`).
`np.mean` / `np.std` are the population mean and standard deviation; the
standard deviation is irrational in general, so the embedding carries the
population variance (`qvar`, the square of `np.std`) and encodes every
comparison against the standard deviation by an exact algebraic
equivalent, proved equal to the square-root formulation in the
claim theorems. -/

/-- Population mean (`np.mean`).  In `ℚ`, division by zero yields 0; every
use in the source is guarded by a minimum sample count. -/
def qmean (l : List ℚ) : ℚ := l.sum / l.length

/-- Population variance, the square of `np.std`. -/
def qvar (l : List ℚ) : ℚ := ((l.map fun x => (x - qmean l) ^ 2).sum) / l.length

/-- `detect_outliers_zscore` (lines 102-119): empty for fewer than 3
samples or zero standard deviation (equivalently zero variance); otherwise
the ascending indices whose z-score `|x - mean| / std` strictly exceeds
`threshold`.  The z-score comparison is encoded without the irrational
`std` as `threshold < 0 ∨ threshold^2 * var < (x - mean)^2`, an exact
equivalent proved in `zscore_outliers_spec`. -/
def detect_outliers_zscore (values : List ℚ) (threshold : ℚ) : List ℕ :=
  if values.length < 3 then []
  else if qvar values = 0 then []
  else
    (List.range values.length).filter fun i =>
      decide (threshold < 0) ||
        decide (threshold ^ 2 * qvar values < (values.getD i 0 - qmean values) ^ 2)

/-- Linear-interpolated percentile, `np.percentile(values, q)` with the
default interpolation: on the sorted copy `a` of the samples, the virtual
position is `p = q/100 * (n-1)`, and the result is
`a[⌊p⌋] + (p - ⌊p⌋) * (a[⌊p⌋+1] - a[⌊p⌋])` (the upper index is clipped:
when `⌊p⌋` is the last index the fractional part is zero and the lower
value is returned). -/
def percentile (values : List ℚ) (q : ℚ) : ℚ :=
  let sorted := values.insertionSort (· ≤ ·)
  let p : ℚ := q / 100 * ((values.length : ℚ) - 1)
  let k : ℕ := ⌊p⌋.toNat
  let lo := sorted.getD k 0
  let hi := sorted.getD (k + 1) lo
  lo + (p - k) * (hi - lo)

/-- `detect_outliers_iqr` (lines 121-141): empty for fewer than 4 samples;
otherwise the ascending indices of the values strictly outside
`[Q1 - multiplier*IQR, Q3 + multiplier*IQR]` where `Q1`/`Q3` are the
linear-interpolated 25th/75th percentiles and `IQR = Q3 - Q1`. -/
def detect_outliers_iqr (values : List ℚ) (multiplier : ℚ) : List ℕ :=
  if values.length < 4 then []
  else
    (List.range values.length).filter fun i =>
      decide (values.getD i 0 <
          percentile values 25 - multiplier * (percentile values 75 - percentile values 25)) ||
        decide (percentile values 75 + multiplier * (percentile values 75 - percentile values 25) <
          values.getD i 0)

lemma qvar_nonneg (l : List ℚ) : 0 ≤ qvar l := by
  apply div_nonneg
  · apply List.sum_nonneg
    intro x hx
    obtain ⟨y, -, rfl⟩ := List.mem_map.mp hx
    positivity
  · positivity

lemma qmean_replicate (n : ℕ) (c : ℚ) (hn : n ≠ 0) :
    qmean (List.replicate n c) = c := by
  rw [qmean, List.sum_replicate, List.length_replicate]
  rw [nsmul_eq_mul]
  field_simp

lemma qvar_replicate (n : ℕ) (c : ℚ) : qvar (List.replicate n c) = 0 := by
  rcases Nat.eq_zero_or_pos n with hn | hn
  · subst hn
    simp [qvar, qmean]
  · rw [qvar, qmean_replicate n c (Nat.pos_iff_ne_zero.mp hn), List.map_replicate]
    simp

/-- The encoded z-score comparison agrees with the square-root
formulation: for a positive variance `v`, `t < |d| / sqrt v` holds iff
`t < 0 ∨ t^2 * v < d^2`. -/
lemma zscore_compare_eq_sqrt_form (d v t : ℚ) (hv : 0 < v) :
    ((t : ℝ) < |(d : ℝ)| / Real.sqrt (v : ℝ)) ↔ (t < 0 ∨ t ^ 2 * v < d ^ 2) := by
  have hv' : (0 : ℝ) < (v : ℝ) := by exact_mod_cast hv
  have hs : 0 < Real.sqrt (v : ℝ) := Real.sqrt_pos.mpr hv'
  rw [lt_div_iff₀ hs]
  constructor
  · intro h
    by_cases ht : t < 0
    · exact Or.inl ht
    · push_neg at ht
      have ht' : (0 : ℝ) ≤ (t : ℝ) := by exact_mod_cast ht
      right
      have hmn : (0 : ℝ) ≤ (t : ℝ) * Real.sqrt (v : ℝ) :=
        mul_nonneg ht' (Real.sqrt_nonneg _)
      have h2 : ((t : ℝ) * Real.sqrt (v : ℝ)) ^ 2 < |(d : ℝ)| ^ 2 :=
        pow_lt_pow_left₀ h hmn two_ne_zero
      rw [mul_pow, Real.sq_sqrt hv'.le, sq_abs] at h2
      exact_mod_cast h2
  · intro h
    rcases h with ht | h
    · have ht' : (t : ℝ) < 0 := by exact_mod_cast ht
      calc (t : ℝ) * Real.sqrt (v : ℝ) < 0 := mul_neg_of_neg_of_pos ht' hs
        _ ≤ |(d : ℝ)| := abs_nonneg _
    · by_cases ht : t < 0
      · have ht' : (t : ℝ) < 0 := by exact_mod_cast ht
        calc (t : ℝ) * Real.sqrt (v : ℝ) < 0 := mul_neg_of_neg_of_pos ht' hs
          _ ≤ |(d : ℝ)| := abs_nonneg _
      · push_neg at ht
        have ht' : (0 : ℝ) ≤ (t : ℝ) := by exact_mod_cast ht
        have h2 : ((t : ℝ) * Real.sqrt (v : ℝ)) ^ 2 < |(d : ℝ)| ^ 2 := by
          rw [mul_pow, Real.sq_sqrt hv'.le, sq_abs]
          exact_mod_cast h
        exact lt_of_pow_lt_pow_left₀ 2 (abs_nonneg _) h2

/-- C8: `detect_outliers_zscore` returns the empty set when there are
fewer than 3 samples or the population standard deviation is zero
(equivalently, the variance is zero), and otherwise exactly the indices
whose z-score `|x_i - mean| / std` strictly exceeds the threshold; on any
all-identical sequence it is empty. -/
theorem zscore_outliers_spec (values : List ℚ) (t : ℚ) :
    (values.length < 3 → detect_outliers_zscore values t = []) ∧
    (qvar values = 0 → detect_outliers_zscore values t = []) ∧
    (3 ≤ values.length → qvar values ≠ 0 → ∀ i,
      i ∈ detect_outliers_zscore values t ↔
        i < values.length ∧
          (t : ℝ) < |(values.getD i 0 : ℝ) - (qmean values : ℝ)| /
            Real.sqrt (qvar values : ℝ)) ∧
    (∀ (n : ℕ) (c : ℚ), detect_outliers_zscore (List.replicate n c) t = []) := by
  refine ⟨?_, ?_, ?_, ?_⟩
  · intro h
    simp [detect_outliers_zscore, h]
  · intro h
    simp [detect_outliers_zscore, h]
  · intro h3 hv i
    have hvpos : 0 < qvar values := lt_of_le_of_ne (qvar_nonneg values) (Ne.symm hv)
    unfold detect_outliers_zscore
    rw [if_neg (by omega), if_neg hv, List.mem_filter, List.mem_range, Bool.or_eq_true,
      decide_eq_true_iff, decide_eq_true_iff]
    have hbr := zscore_compare_eq_sqrt_form (values.getD i 0 - qmean values) (qvar values) t
      hvpos
    rw [show ((values.getD i 0 - qmean values : ℚ) : ℝ) =
        (values.getD i 0 : ℝ) - (qmean values : ℝ) by push_cast; ring] at hbr
    rw [← hbr]
  · intro n c
    simp [detect_outliers_zscore, qvar_replicate]

lemma getD_replicate (n k : ℕ) (c d : ℚ) :
    (List.replicate n c).getD k d = if k < n then c else d := by
  rw [List.getD_eq_getElem?_getD, List.getElem?_replicate]
  by_cases h : k < n <;> simp [h]

lemma insertionSort_replicate (n : ℕ) (c : ℚ) :
    (List.replicate n c).insertionSort (· ≤ ·) = List.replicate n c := by
  have hp := List.perm_insertionSort (fun a b : ℚ => a ≤ b) (List.replicate n c)
  rw [List.eq_replicate_iff]
  exact ⟨by rw [hp.length_eq, List.length_replicate],
    fun b hb => List.eq_of_mem_replicate (hp.mem_iff.mp hb)⟩

/-- A percentile of an all-identical sample list is the common value. -/
lemma percentile_replicate (n : ℕ) (c q : ℚ) (hn : 1 ≤ n) (hq1 : q ≤ 100) :
    percentile (List.replicate n c) q = c := by
  simp only [percentile, insertionSort_replicate, List.length_replicate]
  have hn' : (1 : ℚ) ≤ (n : ℚ) := by exact_mod_cast hn
  have hple : q / 100 * ((n : ℚ) - 1) ≤ (n : ℚ) - 1 := by
    have h1 : q / 100 ≤ 1 := by
      rw [div_le_one (by norm_num : (0 : ℚ) < 100)]
      exact hq1
    nlinarith
  have hfle : ⌊q / 100 * ((n : ℚ) - 1)⌋ ≤ (n : ℤ) - 1 := by
    have hcast : ((n : ℚ) - 1) = (((n : ℤ) - 1 : ℤ) : ℚ) := by push_cast; ring
    calc ⌊q / 100 * ((n : ℚ) - 1)⌋ ≤ ⌊(n : ℚ) - 1⌋ :=
          Int.floor_le_floor hple
      _ = (n : ℤ) - 1 := by rw [hcast, Int.floor_intCast]
  have hk : ⌊q / 100 * ((n : ℚ) - 1)⌋.toNat < n := by omega
  have hlo : (List.replicate n c).getD ⌊q / 100 * ((n : ℚ) - 1)⌋.toNat 0 = c := by
    rw [getD_replicate, if_pos hk]
  rw [hlo]
  have hhi : (List.replicate n c).getD (⌊q / 100 * ((n : ℚ) - 1)⌋.toNat + 1) c = c := by
    rw [getD_replicate]
    split <;> rfl
  rw [hhi]
  ring

/-- C9: `detect_outliers_iqr` returns the empty set when there are fewer
than 4 samples, and otherwise exactly the indices of values strictly
outside `[Q1 - multiplier*IQR, Q3 + multiplier*IQR]` with `Q1`/`Q3` the
linear-interpolated 25th/75th percentiles; on any all-identical sequence
it is empty. -/
theorem iqr_outliers_spec (values : List ℚ) (m : ℚ) :
    (values.length < 4 → detect_outliers_iqr values m = []) ∧
    (4 ≤ values.length → ∀ i,
      i ∈ detect_outliers_iqr values m ↔
        i < values.length ∧
          (values.getD i 0 <
              percentile values 25 - m * (percentile values 75 - percentile values 25) ∨
            percentile values 75 + m * (percentile values 75 - percentile values 25) <
              values.getD i 0)) ∧
    (∀ (n : ℕ) (c : ℚ), detect_outliers_iqr (List.replicate n c) m = []) := by
  refine ⟨?_, ?_, ?_⟩
  · intro h
    simp [detect_outliers_iqr, h]
  · intro h4 i
    unfold detect_outliers_iqr
    rw [if_neg (by omega), List.mem_filter, List.mem_range, Bool.or_eq_true,
      decide_eq_true_iff, decide_eq_true_iff]
  · intro n c
    unfold detect_outliers_iqr
    split
    · rfl
    · rename_i h
      have hn : 1 ≤ n := by
        rw [List.length_replicate] at h
        omega
      rw [percentile_replicate n c 25 hn (by norm_num),
        percentile_replicate n c 75 hn (by norm_num)]
      rw [List.filter_eq_nil_iff]
      intro i hi
      rw [List.length_replicate, List.mem_range] at hi
      rw [getD_replicate, if_pos hi]
      simp

/-- Witness for C8 at concrete inputs: two samples yield no outliers, and
an all-identical sequence yields no outliers. -/
theorem zscore_outliers_spec_witness :
    detect_outliers_zscore [(5 : ℚ), 5] 2 = [] ∧
      detect_outliers_zscore (List.replicate 7 (3 : ℚ)) 2 = [] :=
  ⟨(zscore_outliers_spec [(5 : ℚ), 5] 2).1 (by decide),
    (zscore_outliers_spec [(5 : ℚ), 5] 2).2.2.2 7 3⟩

/-- Witness for C9 at concrete inputs: three samples yield no outliers,
and an all-identical sequence yields no outliers. -/
theorem iqr_outliers_spec_witness :
    detect_outliers_iqr [(1 : ℚ), 2, 3] (3 / 2) = [] ∧
      detect_outliers_iqr (List.replicate 5 (7 : ℚ)) (3 / 2) = [] :=
  ⟨(iqr_outliers_spec [(1 : ℚ), 2, 3] (3 / 2)).1 (by decide),
    (iqr_outliers_spec [(1 : ℚ), 2, 3] (3 / 2)).2.2 5 7⟩

/-! The pairwise analyzer (`PairwiseNodeTester._analyze_pairwise_results`,
lines 386-442 of `bisection_detection.py`). -/

/-- One entry of `self.pairwise_results` (lines 351-357): the two nodes of
the pair, the parsed aggregate bandwidth and the raw success flag. -/
structure PairRecord (α : Type) where
  node1 : α
  node2 : α
  bandwidth : Option ℚ
  success : Bool

/-- Per-node accumulator (`node_stats`, line 388): bandwidth samples,
failed-pair count, total-pair count. -/
structure NodeStat where
  bandwidths : List ℚ
  failures : ℕ
  tests : ℕ

def emptyStat : NodeStat := ⟨[], 0, 0⟩

/-- One update of a node's accumulator from one pair result (lines
395-400): the test count always increments, the bandwidth is appended
only when truthy (`if bw:` — `None` and `0.0` are skipped), and the
failure count increments when the pair was not successful. -/
def statUpdate (st : NodeStat) (bw : Option ℚ) (succ : Bool) : NodeStat :=
  { bandwidths := st.bandwidths ++ (if truthyQ bw then [bw.getD 0] else [])
    failures := st.failures + (if succ then 0 else 1)
    tests := st.tests + 1 }

/-- Insertion-ordered association-list update, modelling the `defaultdict`
keyed by node (Python dicts preserve insertion order). -/
def updateAssoc [DecidableEq α] (l : List (α × NodeStat)) (key : α) (bw : Option ℚ)
    (succ : Bool) : List (α × NodeStat) :=
  match l with
  | [] => [(key, statUpdate emptyStat bw succ)]
  | (k, v) :: rest =>
    if k = key then (k, statUpdate v bw succ) :: rest
    else (k, v) :: updateAssoc rest key bw succ

/-- The `node_stats` accumulation loop (lines 390-400): each pair result
updates both of its nodes, first node first. -/
def collectStats [DecidableEq α] (pairs : List (PairRecord α)) : List (α × NodeStat) :=
  pairs.foldl
    (fun acc p =>
      updateAssoc (updateAssoc acc p.node1 p.bandwidth p.success) p.node2 p.bandwidth
        p.success)
    []

/-- `analysis["node_statistics"]` (lines 408-421), restricted to the
fields the flagging rule reads: for each node with at least one recorded
bandwidth sample, in insertion order, its node, average bandwidth and
failure rate (`failures / tests`, `0` if no tests). -/
def statRows [DecidableEq α] (pairs : List (PairRecord α)) : List (α × ℚ × ℚ) :=
  (collectStats pairs).filterMap fun nst =>
    if nst.2.bandwidths = [] then none
    else
      some (nst.1, qmean nst.2.bandwidths,
        if 0 < nst.2.tests then (nst.2.failures : ℚ) / nst.2.tests else 0)

/-- Encodes `avg < mean - 2 * std` (with `std` the population standard
deviation of the per-node averages and `v` its square) without the
irrational square root; proved equivalent to the square-root formulation
in `belowTwoSigma_iff_sqrt_form`. -/
def belowTwoSigma (avg m v : ℚ) : Bool :=
  decide (0 < m - avg) && decide (4 * v < (m - avg) ^ 2)

/-- `_analyze_pairwise_results` (lines 423-440): when at least one node
has a bandwidth sample, the mean and population standard deviation of the
per-node average bandwidths fix the threshold `mean - 2*std`; each node is
flagged when its average is below that threshold or its failure rate
exceeds `0.2`, with reason `"Low bandwidth"` in the first case and
`"High failure rate"` otherwise. -/
def problematic_nodes [DecidableEq α] (pairs : List (PairRecord α)) : List (α × String) :=
  if (statRows pairs).isEmpty then []
  else
    (statRows pairs).filterMap fun row =>
      if belowTwoSigma row.2.1 (qmean ((statRows pairs).map fun r => r.2.1))
            (qvar ((statRows pairs).map fun r => r.2.1)) ||
          decide ((1 : ℚ) / 5 < row.2.2) then
        some (row.1,
          if belowTwoSigma row.2.1 (qmean ((statRows pairs).map fun r => r.2.1))
              (qvar ((statRows pairs).map fun r => r.2.1)) then "Low bandwidth"
          else "High failure rate")
      else none

/-- The encoded 2-sigma test agrees with the square-root formulation. -/
lemma belowTwoSigma_iff_sqrt_form (avg m v : ℚ) (hv : 0 ≤ v) :
    belowTwoSigma avg m v = true ↔
      ((avg : ℝ) < (m : ℝ) - 2 * Real.sqrt (v : ℝ)) := by
  have hv' : (0 : ℝ) ≤ (v : ℝ) := by exact_mod_cast hv
  have hs : (0 : ℝ) ≤ 2 * Real.sqrt (v : ℝ) := by positivity
  have hiff : ((avg : ℝ) < (m : ℝ) - 2 * Real.sqrt (v : ℝ)) ↔
      2 * Real.sqrt (v : ℝ) < (m : ℝ) - (avg : ℝ) := by constructor <;> intro <;> linarith
  rw [belowTwoSigma, Bool.and_eq_true, decide_eq_true_iff, decide_eq_true_iff, hiff]
  constructor
  · rintro ⟨h1, h2⟩
    have h1' : (0 : ℝ) < (m : ℝ) - (avg : ℝ) := by
      have hc : (0 : ℝ) < ((m - avg : ℚ) : ℝ) := by exact_mod_cast h1
      push_cast at hc
      linarith
    have h2' : (2 * Real.sqrt (v : ℝ)) ^ 2 < ((m : ℝ) - (avg : ℝ)) ^ 2 := by
      rw [mul_pow, Real.sq_sqrt hv']
      have hc : ((4 * v : ℚ) : ℝ) < (((m - avg) ^ 2 : ℚ) : ℝ) := by exact_mod_cast h2
      push_cast at hc
      norm_num
      linarith
    exact lt_of_pow_lt_pow_left₀ 2 h1'.le h2'
  · intro h
    have h1' : (0 : ℝ) < (m : ℝ) - (avg : ℝ) := lt_of_le_of_lt hs h
    have h2' : (2 * Real.sqrt (v : ℝ)) ^ 2 < ((m : ℝ) - (avg : ℝ)) ^ 2 :=
      pow_lt_pow_left₀ h hs two_ne_zero
    rw [mul_pow, Real.sq_sqrt hv'] at h2'
    constructor
    · have hc : (0 : ℝ) < ((m - avg : ℚ) : ℝ) := by push_cast; linarith
      exact_mod_cast hc
    · have hc : ((4 * v : ℚ) : ℝ) < (((m - avg) ^ 2 : ℚ) : ℝ) := by
        push_cast
        norm_num at h2' ⊢
        linarith
      exact_mod_cast hc

/-- Membership in the problematic-node list, in the algebraically encoded
form: a node is listed iff it has a row (average bandwidth and failure
rate) among the nodes with bandwidth samples, its average is below the
2-sigma threshold or its failure rate exceeds `1/5`, and its reason
string is `"Low bandwidth"` in the first case, else
`"High failure rate"`. -/
lemma problematic_nodes_mem [DecidableEq α] (pairs : List (PairRecord α)) (node : α)
    (reason : String) :
    (node, reason) ∈ problematic_nodes pairs ↔
      ∃ avg fr : ℚ, (node, avg, fr) ∈ statRows pairs ∧
        (belowTwoSigma avg (qmean ((statRows pairs).map fun r => r.2.1))
            (qvar ((statRows pairs).map fun r => r.2.1)) = true ∨ (1 : ℚ) / 5 < fr) ∧
        reason = (if belowTwoSigma avg (qmean ((statRows pairs).map fun r => r.2.1))
              (qvar ((statRows pairs).map fun r => r.2.1)) then "Low bandwidth"
          else "High failure rate") := by
  unfold problematic_nodes
  by_cases hemp : (statRows pairs).isEmpty
  · rw [if_pos hemp]
    rw [List.isEmpty_iff] at hemp
    rw [hemp]
    simp
  · rw [if_neg hemp, List.mem_filterMap]
    constructor
    · rintro ⟨⟨n, avg, fr⟩, hrow, hsome⟩
      dsimp only at hsome
      by_cases hc : (belowTwoSigma avg (qmean ((statRows pairs).map fun r => r.2.1))
          (qvar ((statRows pairs).map fun r => r.2.1)) ||
            decide ((1 : ℚ) / 5 < fr)) = true
      · rw [if_pos hc, Option.some.injEq, Prod.mk.injEq] at hsome
        obtain ⟨rfl, hr⟩ := hsome
        refine ⟨avg, fr, hrow, ?_, hr.symm⟩
        rw [Bool.or_eq_true] at hc
        rcases hc with h | h
        · exact Or.inl h
        · exact Or.inr (of_decide_eq_true h)
      · rw [if_neg hc] at hsome
        simp at hsome
    · rintro ⟨avg, fr, hrow, hcond, hreason⟩
      refine ⟨(node, avg, fr), hrow, ?_⟩
      dsimp only
      have hc : (belowTwoSigma avg (qmean ((statRows pairs).map fun r => r.2.1))
          (qvar ((statRows pairs).map fun r => r.2.1)) ||
            decide ((1 : ℚ) / 5 < fr)) = true := by
        rw [Bool.or_eq_true]
        rcases hcond with h | h
        · exact Or.inl h
        · exact Or.inr (decide_eq_true h)
      rw [if_pos hc, hreason]

/-- The C3 scenario: pair results AB=100, AC=100, BC=10, every pair
invocation succeeding. -/
def abcPairs : List (PairRecord String) :=
  [⟨"A", "B", some 100, true⟩, ⟨"A", "C", some 100, true⟩, ⟨"B", "C", some 10, true⟩]

/-- C3 counterexample: on the scenario AB=100, AC=100, BC=10 with all
pair invocations succeeding, node C is NOT flagged by
`_analyze_pairwise_results` (nothing is). -/
theorem pairwise_abc_does_not_flag_C :
    "C" ∉ (problematic_nodes abcPairs).map Prod.fst := by
  have h : problematic_nodes abcPairs = [] := by
    norm_num +decide [abcPairs, problematic_nodes, statRows, collectStats, updateAssoc,
      statUpdate, emptyStat, truthyQ, qvar, qmean, belowTwoSigma, List.filterMap_cons]
  rw [h]
  simp

/-- C3 (amended): a node is flagged iff its average bandwidth is below
`global_mean - 2 * global_std` or its failure rate exceeds `0.2`, with
reason `"Low bandwidth"` in the first case and `"High failure rate"`
otherwise; but on the scenario AB=100, AC=100, BC=10 (all successes) the
per-node averages are A:100, B:55, C:55 — the BC link drags B down as
well — the global mean is 70 and the population variance 450, so the
threshold `70 - 2*sqrt 450 ≈ 27.6` is below every average, every failure
rate is 0, and NO node is flagged. -/
theorem pairwise_flagging_rule_and_abc_flags_none :
    (∀ (pairs : List (PairRecord String)) (node reason : String),
      (node, reason) ∈ problematic_nodes pairs ↔
        ∃ avg fr : ℚ, (node, avg, fr) ∈ statRows pairs ∧
          (((avg : ℝ) < (qmean ((statRows pairs).map fun r => r.2.1) : ℝ) -
              2 * Real.sqrt ((qvar ((statRows pairs).map fun r => r.2.1)) : ℝ)) ∨
            (1 : ℚ) / 5 < fr) ∧
          (((avg : ℝ) < (qmean ((statRows pairs).map fun r => r.2.1) : ℝ) -
              2 * Real.sqrt ((qvar ((statRows pairs).map fun r => r.2.1)) : ℝ)) →
            reason = "Low bandwidth") ∧
          (¬ ((avg : ℝ) < (qmean ((statRows pairs).map fun r => r.2.1) : ℝ) -
              2 * Real.sqrt ((qvar ((statRows pairs).map fun r => r.2.1)) : ℝ)) →
            reason = "High failure rate")) ∧
    statRows abcPairs = [("A", 100, 0), ("B", 55, 0), ("C", 55, 0)] ∧
    qmean ((statRows abcPairs).map fun r => r.2.1) = 70 ∧
    qvar ((statRows abcPairs).map fun r => r.2.1) = 450 ∧
    problematic_nodes abcPairs = [] := by
  refine ⟨?_, ?_, ?_, ?_, ?_⟩
  · intro pairs node reason
    rw [problematic_nodes_mem]
    have hbr := belowTwoSigma_iff_sqrt_form
    constructor
    · rintro ⟨avg, fr, hrow, hcond, hreason⟩
      refine ⟨avg, fr, hrow, ?_, ?_, ?_⟩
      · rcases hcond with h | h
        · exact Or.inl ((hbr avg _ _ (qvar_nonneg _)).mp h)
        · exact Or.inr h
      · intro hreal
        rw [hreason, if_pos ((hbr avg _ _ (qvar_nonneg _)).mpr hreal)]
      · intro hreal
        rw [hreason, if_neg ?_]
        intro hb
        exact hreal ((hbr avg _ _ (qvar_nonneg _)).mp hb)
    · rintro ⟨avg, fr, hrow, hcond, hlow, hhigh⟩
      refine ⟨avg, fr, hrow, ?_, ?_⟩
      · rcases hcond with h | h
        · exact Or.inl ((hbr avg _ _ (qvar_nonneg _)).mpr h)
        · exact Or.inr h
      · by_cases hb : belowTwoSigma avg (qmean ((statRows pairs).map fun r => r.2.1))
            (qvar ((statRows pairs).map fun r => r.2.1)) = true
        · rw [if_pos hb]
          exact hlow ((hbr avg _ _ (qvar_nonneg _)).mp hb)
        · rw [if_neg hb]
          refine hhigh ?_
          intro hreal
          exact hb ((hbr avg _ _ (qvar_nonneg _)).mpr hreal)
  · norm_num +decide [abcPairs, statRows, collectStats, updateAssoc, statUpdate,
      emptyStat, truthyQ, qmean, List.filterMap_cons]
  · norm_num +decide [abcPairs, statRows, collectStats, updateAssoc, statUpdate,
      emptyStat, truthyQ, qmean, List.filterMap_cons]
  · norm_num +decide [abcPairs, statRows, collectStats, updateAssoc, statUpdate,
      emptyStat, truthyQ, qvar, qmean, List.filterMap_cons]
  · norm_num +decide [abcPairs, problematic_nodes, statRows, collectStats, updateAssoc,
      statUpdate, emptyStat, truthyQ, qvar, qmean, belowTwoSigma, List.filterMap_cons]

/-- `analyze_node_performance` (lines 171-202 of `detect_slow_nodes.py`),
from the point where the per-test bandwidth samples `all_bandwidths` have
been extracted: the Z-score (threshold 2.0) and IQR (multiplier 1.5)
outlier index sets are intersected, and a host is reported iff some
sample index of the intersection falls in its GPU block
`[host_idx * gpus_per_node, (host_idx + 1) * gpus_per_node)`; the
confidence label of a reported host tests the HOST index itself for
membership in the two outlier lists (`"high"` iff in both, else
`"medium"`), exactly as the source does. -/
def slow_nodes (all_bandwidths : List ℚ) (hosts : List String) (gpus_per_node : ℕ) :
    List (String × ℕ × String) :=
  (List.range hosts.length).filterMap fun host_idx =>
    if ((detect_outliers_zscore all_bandwidths 2).filter
          (fun i => decide (i ∈ detect_outliers_iqr all_bandwidths (3 / 2)))).any
        (fun oi => decide (host_idx * gpus_per_node ≤ oi) &&
          decide (oi < host_idx * gpus_per_node + gpus_per_node)) then
      some (hosts.getD host_idx "", host_idx,
        if host_idx ∈ detect_outliers_zscore all_bandwidths 2 ∧
            host_idx ∈ detect_outliers_iqr all_bandwidths (3 / 2) then "high"
        else "medium")
    else none

/-- C10 (amended): a host is reported iff some sample index flagged by
BOTH methods (set intersection) lies in its GPU block — an index flagged
by a single method never suffices and such a host receives no
classification at all; for reported hosts the confidence label compares
the host's own index (not its GPU sample indices) with the two outlier
lists, `"high"` iff the host index is in both, else `"medium"`. -/
theorem slow_nodes_intersection_rule (bw : List ℚ) (hosts : List String) (g : ℕ) :
    (∀ idx : ℕ,
      (∃ e ∈ slow_nodes bw hosts g, e.2.1 = idx) ↔
        (idx < hosts.length ∧ ∃ oi, oi ∈ detect_outliers_zscore bw 2 ∧
          oi ∈ detect_outliers_iqr bw (3 / 2) ∧ idx * g ≤ oi ∧ oi < idx * g + g)) ∧
    (((detect_outliers_zscore bw 2).filter
        (fun i => decide (i ∈ detect_outliers_iqr bw (3 / 2))) = []) →
      slow_nodes bw hosts g = []) ∧
    (∀ h i c, (h, i, c) ∈ slow_nodes bw hosts g →
      c = if i ∈ detect_outliers_zscore bw 2 ∧ i ∈ detect_outliers_iqr bw (3 / 2)
        then "high" else "medium") := by
  refine ⟨?_, ?_, ?_⟩
  · intro idx
    constructor
    · rintro ⟨e, he, heq⟩
      rw [slow_nodes, List.mem_filterMap] at he
      obtain ⟨hi, hmem, hsome⟩ := he
      rw [List.mem_range] at hmem
      by_cases hcond : ((detect_outliers_zscore bw 2).filter
          (fun i => decide (i ∈ detect_outliers_iqr bw (3 / 2)))).any
          (fun oi => decide (hi * g ≤ oi) && decide (oi < hi * g + g)) = true
      · rw [if_pos hcond, Option.some.injEq] at hsome
        subst hsome
        dsimp only at heq
        subst heq
        refine ⟨hmem, ?_⟩
        rw [List.any_eq_true] at hcond
        obtain ⟨oi, hoi, hcond2⟩ := hcond
        rw [List.mem_filter] at hoi
        rw [Bool.and_eq_true, decide_eq_true_eq, decide_eq_true_eq] at hcond2
        exact ⟨oi, hoi.1, of_decide_eq_true hoi.2, hcond2.1, hcond2.2⟩
      · rw [if_neg hcond] at hsome
        simp at hsome
    · rintro ⟨hlen, oi, hz, hq, h1, h2⟩
      refine ⟨(hosts.getD idx "", idx,
        if idx ∈ detect_outliers_zscore bw 2 ∧ idx ∈ detect_outliers_iqr bw (3 / 2)
          then "high" else "medium"), ?_, rfl⟩
      rw [slow_nodes, List.mem_filterMap]
      refine ⟨idx, List.mem_range.mpr hlen, ?_⟩
      rw [if_pos ?_]
      · rw [List.any_eq_true]
        refine ⟨oi, List.mem_filter.mpr ⟨hz, decide_eq_true hq⟩, ?_⟩
        rw [Bool.and_eq_true, decide_eq_true_eq, decide_eq_true_eq]
        exact ⟨h1, h2⟩
  · intro hfil
    rw [slow_nodes, hfil]
    simp
  · intro h i c hmem
    rw [slow_nodes, List.mem_filterMap] at hmem
    obtain ⟨hi, hmem2, hsome⟩ := hmem
    by_cases hcond : ((detect_outliers_zscore bw 2).filter
        (fun i => decide (i ∈ detect_outliers_iqr bw (3 / 2)))).any
        (fun oi => decide (hi * g ≤ oi) && decide (oi < hi * g + g)) = true
    · rw [if_pos hcond, Option.some.injEq, Prod.mk.injEq] at hsome
      obtain ⟨-, h2⟩ := hsome
      rw [Prod.mk.injEq] at h2
      obtain ⟨rfl, rfl⟩ := h2
      rfl
    · rw [if_neg hcond] at hsome
      simp at hsome

/-- Witness for the amended C10: on four identical samples neither method
flags anything, the intersection is empty, and nothing is reported. -/
theorem slow_nodes_intersection_rule_witness :
    ((detect_outliers_zscore [(1 : ℚ), 1, 1, 1] 2).filter
        (fun i => decide (i ∈ detect_outliers_iqr [(1 : ℚ), 1, 1, 1] (3 / 2))) = []) ∧
      slow_nodes [(1 : ℚ), 1, 1, 1] ["h"] 4 = [] := by
  have hfil : (detect_outliers_zscore [(1 : ℚ), 1, 1, 1] 2).filter
      (fun i => decide (i ∈ detect_outliers_iqr [(1 : ℚ), 1, 1, 1] (3 / 2))) = [] := by
    have hz : detect_outliers_zscore [(1 : ℚ), 1, 1, 1] 2 = [] := by
      norm_num [detect_outliers_zscore, qvar, qmean]
    rw [hz]
    rfl
  exact ⟨hfil, (slow_nodes_intersection_rule [(1 : ℚ), 1, 1, 1] ["h"] 4).2.1 hfil⟩

/-- C10 counterexample: on samples `[10, 10, 10, 11]` with two hosts of
two GPUs each, sample index 3 (second host's block) is an IQR outlier but
not a Z-score outlier — an outlier by exactly one method — yet the second
host is not reported at all, so it is never classified as `"medium"`. -/
theorem single_method_outlier_not_reported :
    3 ∈ detect_outliers_iqr [10, 10, 10, 11] (3 / 2) ∧
      3 ∉ detect_outliers_zscore [10, 10, 10, 11] 2 ∧
      slow_nodes [10, 10, 10, 11] ["h0", "h1"] 2 = [] := by
  have hz : detect_outliers_zscore [10, 10, 10, 11] 2 = [] := by
    norm_num [detect_outliers_zscore, qvar, qmean, List.range_succ, List.filter_append,
      List.filter_cons, List.filter_nil]
  have hq : detect_outliers_iqr ([10, 10, 10, 11] : List ℚ) (3 / 2) = [3] := by
    norm_num [detect_outliers_iqr, percentile, List.insertionSort, List.orderedInsert,
      List.range_succ, List.filter_append, List.filter_cons, List.filter_nil]
    simp
    norm_num
  refine ⟨by rw [hq]; exact List.mem_singleton_self 3, by rw [hz]; exact List.not_mem_nil 3,
    ?_⟩
  rw [slow_nodes, hz]
  simp

end SlowNode
